import Mathlib

/-!
Verification of the row-splitting widget (rowspit_instances/widget.py).

The widget holds an input table and a combo-box model of candidate quantity
columns; its operations are embedded here as pure functions:

* a `Variable` is an Orange variable: a name plus whether it is a
  `ContinuousVariable` (the only type information the code inspects);
* a cell value is `Option ℚ`: `none` models NaN / a missing value,
  `some q` a finite float (the code only compares, takes `mod 1`, and
  counts with these values, so exact rationals are a faithful carrier);
* a `Domain` is Orange's triple of attributes, class variables and metas;
  `Domain.variables` is Orange's `domain.variables` (attributes followed by
  class variables, metas excluded) and `Domain.empty` is `domain.empty()`
  (no variables of any kind);
* a row is the list of its cell values, ordered like `Domain.allColumns`;
  `getVal` is Orange's name-based cell lookup `row[name]` (first column
  whose name matches; `none` when the lookup runs off the row).
-/

structure Variable where
  name : String
  isContinuous : Bool
deriving DecidableEq

abbrev Value := Option ℚ

structure Domain where
  attributes : List Variable
  class_vars : List Variable
  metas : List Variable
deriving DecidableEq

/-- Orange's `domain.variables`: attributes followed by class variables. -/
def Domain.variables (d : Domain) : List Variable :=
  d.attributes ++ d.class_vars

/-- All columns a row carries values for, in storage order. -/
def Domain.allColumns (d : Domain) : List Variable :=
  d.attributes ++ d.class_vars ++ d.metas

/-- Orange's `domain.empty()`: no variables and no metas. -/
def Domain.empty (d : Domain) : Bool :=
  d.variables.isEmpty && d.metas.isEmpty

structure Table where
  domain : Domain
  rows : List (List Value)
deriving DecidableEq

/-- `row[name]`: value of the first column called `name` (missing → `none`). -/
def getVal : List Variable → List Value → String → Value
  | [], _, _ => none
  | _ :: _, [], _ => none
  | c :: cs, x :: xs, nm => if c.name = nm then x else getVal cs xs nm

/-- `np.isnan(v) or np.equal(np.mod(v, 1), 0)`: NaN counts as fine, otherwise
the value must have zero fractional part. -/
def isIntegerVal (v : Value) : Bool :=
  match v with
  | none => true
  | some q => q.den == 1

/-- `is_integer_col`: the column is a `ContinuousVariable` and every row's
value in it is NaN or integer-valued. -/
def is_integer_col (t : Table) (v : Variable) : Bool :=
  v.isContinuous && t.rows.all (fun row => isIntegerVal (getVal t.domain.allColumns row v.name))

/-- The candidate quantity columns `set_data` appends to the combo model:
the declared variables that pass `is_integer_col`, in declared order. -/
def eligibleColumns (t : Table) : List Variable :=
  t.domain.variables.filter (fun v => is_integer_col t v)

/-- An entry of the combo-box model: the placeholder string or a variable. -/
inductive FeatureItem where
  | sentinel (label : String)
  | col (v : Variable)
deriving DecidableEq

/-- The placeholder put at position 0 of the combo-box model. -/
def selectFeatureLabel : String :=
  "Select Feature"

/-- `set_data`: rebuild the combo-box model for a new input.  The guard is
`if self.data and self.data.domain is not None and not self.data.domain.empty()`;
`self.data` is tested for Python truthiness, and an Orange `Table` with zero
rows is falsy (its `__len__` is its row count), so the eligible columns are
appended only for a table with at least one row and a nonempty domain. -/
def set_data (data : Option Table) : List FeatureItem :=
  match data with
  | none => [FeatureItem.sentinel selectFeatureLabel]
  | some t =>
    if !t.rows.isEmpty && !t.domain.empty then
      FeatureItem.sentinel selectFeatureLabel ::
        (eligibleColumns t).map FeatureItem.col
    else [FeatureItem.sentinel selectFeatureLabel]

/-- `selected_col`: `None` when the combo index is below 1, otherwise the
model item at that index (the widget never reads an out-of-range index;
`none` stands for both). -/
def selected_col (features : List FeatureItem) (index : ℤ) : Option FeatureItem :=
  if index < 1 then none else features.get? index.toNat

/-- Python truthiness of a model item: variables are truthy objects, a string
is truthy when nonempty. -/
def itemTruthy : FeatureItem → Bool
  | FeatureItem.sentinel label => !label.isEmpty
  | FeatureItem.col _ => true

/-- `feature_changed`: the Split button is enabled iff `selected_col()` is
truthy. -/
def feature_changed (features : List FeatureItem) (index : ℤ) : Bool :=
  match selected_col features index with
  | none => false
  | some item => itemTruthy item

/-- What `handleNewSignals` does: either an emission on the output boundary
or a button-state update (via `feature_changed`). -/
inductive SignalEffect where
  | send (value : Option Table)
  | setEnabled (enabled : Bool)
deriving DecidableEq

/-- `handleNewSignals`: with no data, send `None` downstream at once;
otherwise recompute the enablement predicate. -/
def handleNewSignals (data : Option Table) (features : List FeatureItem) (index : ℤ) : SignalEffect :=
  match data with
  | none => SignalEffect.send none
  | some _ => SignalEffect.setEnabled (feature_changed features index)

/-- Reading `.name` off the selection: a `Variable` has one; `None` and the
placeholder string do not (an `AttributeError`, modelled as `none`). -/
def FeatureItem.nameAttr : FeatureItem → Option String
  | FeatureItem.sentinel _ => none
  | FeatureItem.col v => some v.name

/-- The domain `split` constructs: `domain.variables` minus every variable
named like the selection becomes the attributes; class variables and metas
are passed through unchanged. -/
def splitDomain (d : Domain) (col : String) : Domain :=
  { attributes := d.variables.filter (fun v => v.name ≠ col)
    class_vars := d.class_vars
    metas := d.metas }

/-- `Instance(new_domain, row)`: the row converted to the new domain, each
new column taking the source row's value for its name. -/
def convertRow (nd d : Domain) (row : List Value) : List Value :=
  nd.allColumns.map (fun v => getVal d.allColumns row v.name)

/-- The `while rows_added < row[col]` loop: keep appending the converted
instance while the integer counter is below the quantity value. -/
def whileAppend (rowsAdded : ℤ) (v : ℚ) (inst : List Value) (acc : List (List Value)) : List (List Value) :=
  if h : (rowsAdded : ℚ) < v then
    whileAppend (rowsAdded + 1) v inst (acc ++ [inst])
  else acc
termination_by (⌈v⌉ - rowsAdded).toNat
decreasing_by
  have hc : rowsAdded < ⌈v⌉ := Int.lt_ceil.mpr h
  omega

/-- One iteration of `for row in self.data`: append the converted instance,
set `rows_added = 1`, and unless the quantity value is NaN run the while
loop. -/
def processRow (d nd : Domain) (col : String) (acc : List (List Value)) (row : List Value) : List (List Value) :=
  let inst := convertRow nd d row
  let acc2 := acc ++ [inst]
  match getVal d.allColumns row col with
  | none => acc2
  | some v => whileAppend 1 v inst acc2

/-- `split`: read `.name` off the current selection (an exception — `none` —
when nothing real is selected), build the reduced domain, then append the
copies of every row in order and send the result. -/
def split (t : Table) (sel : Option FeatureItem) : Option Table :=
  match sel with
  | none => none
  | some item =>
    match item.nameAttr with
    | none => none
    | some col =>
      let nd := splitDomain t.domain col
      some { domain := nd, rows := t.rows.foldl (processRow t.domain nd col) [] }

/-- Closed form of the per-row copy count the loop produces:
one copy for NaN, otherwise `max(1, ⌈v⌉)` copies. -/
def copiesOf (d : Domain) (col : String) (row : List Value) : ℕ :=
  match getVal d.allColumns row col with
  | none => 1
  | some v => 1 + (⌈v⌉ - 1).toNat

/-- The spec's `int_or_1`: the (floored) quantity value, `1` when missing. -/
def int_or_1 (v : Value) : ℤ :=
  match v with
  | none => 1
  | some q => ⌊q⌋

/-! ### Closed forms of the loops -/

theorem whileAppend_closed (inst : List Value) (v : ℚ) :
    ∀ (n : ℕ) (rowsAdded : ℤ), (⌈v⌉ - rowsAdded).toNat = n →
      ∀ acc, whileAppend rowsAdded v inst acc =
        acc ++ List.replicate (⌈v⌉ - rowsAdded).toNat inst := by
  intro n
  induction n using Nat.strong_induction_on with
  | _ n ih =>
    intro r hn acc
    rw [whileAppend]
    by_cases h : (r : ℚ) < v
    · have hr : r < ⌈v⌉ := Int.lt_ceil.mpr h
      have hlt : (⌈v⌉ - (r + 1)).toNat < n := by omega
      rw [dif_pos h, ih _ hlt (r + 1) rfl (acc ++ [inst])]
      have hstep : (⌈v⌉ - r).toNat = (⌈v⌉ - (r + 1)).toNat + 1 := by omega
      rw [hstep, List.replicate_succ, List.append_assoc]
      rfl
    · have hvr : v ≤ (r : ℚ) := le_of_not_lt h
      have hr : ⌈v⌉ ≤ r := Int.ceil_le.mpr hvr
      have hz : (⌈v⌉ - r).toNat = 0 := by omega
      rw [dif_neg h, hz, List.replicate_zero, List.append_nil]

theorem processRow_closed (d nd : Domain) (col : String) (acc : List (List Value)) (row : List Value) :
    processRow d nd col acc row =
      acc ++ List.replicate (copiesOf d col row) (convertRow nd d row) := by
  unfold processRow copiesOf
  cases hv : getVal d.allColumns row col with
  | none => rfl
  | some v =>
    dsimp only
    rw [whileAppend_closed (convertRow nd d row) v ((⌈v⌉ - 1).toNat) 1 rfl]
    rw [List.append_assoc]
    congr 1
    rw [Nat.add_comm, List.replicate_succ, List.singleton_append]

theorem foldl_processRow_closed (d nd : Domain) (col : String) :
    ∀ (rows : List (List Value)) (acc : List (List Value)),
      rows.foldl (processRow d nd col) acc =
        acc ++ rows.flatMap (fun row => List.replicate (copiesOf d col row) (convertRow nd d row)) := by
  intro rows
  induction rows with
  | nil => intro acc; simp
  | cons r rs ih =>
    intro acc
    rw [List.foldl_cons, ih, processRow_closed, List.flatMap_cons, List.append_assoc]

/-- The rows `split` sends for a real selection, in closed form. -/
def splitRows (t : Table) (col : String) : List (List Value) :=
  t.rows.flatMap (fun row =>
    List.replicate (copiesOf t.domain col row) (convertRow (splitDomain t.domain col) t.domain row))

theorem split_col_closed (t : Table) (C : Variable) :
    split t (some (FeatureItem.col C)) =
      some { domain := splitDomain t.domain C.name, rows := splitRows t C.name } := by
  unfold splitRows
  simp only [split, FeatureItem.nameAttr]
  rw [foldl_processRow_closed]
  rfl

/-! ### Facts about eligibility and per-row copy counts -/

theorem mem_eligibleColumns {t : Table} {C : Variable} :
    C ∈ eligibleColumns t ↔ C ∈ t.domain.variables ∧ is_integer_col t C = true := by
  unfold eligibleColumns
  exact List.mem_filter

theorem is_integer_col_spec {t : Table} {C : Variable} (h : is_integer_col t C = true) :
    C.isContinuous = true ∧
      ∀ row ∈ t.rows, isIntegerVal (getVal t.domain.allColumns row C.name) = true := by
  unfold is_integer_col at h
  rw [Bool.and_eq_true, List.all_eq_true] at h
  exact h

theorem copiesOf_of_integer {d : Domain} {col : String} {row : List Value}
    (h : isIntegerVal (getVal d.allColumns row col) = true) :
    copiesOf d col row = (max 1 (int_or_1 (getVal d.allColumns row col))).toNat := by
  unfold copiesOf int_or_1
  cases hv : getVal d.allColumns row col with
  | none => rfl
  | some q =>
    have hden : q.den = 1 := by
      unfold isIntegerVal at h
      rw [hv] at h
      simpa using h
    have hq : (q.num : ℚ) = q := Rat.coe_int_num_of_den_eq_one hden
    dsimp only
    rw [← hq, Int.ceil_intCast, Int.floor_intCast]
    omega

theorem flatMap_replicate_length (f : List Value → ℕ) (g : List Value → List Value) :
    ∀ rows : List (List Value),
      (rows.flatMap (fun r => List.replicate (f r) (g r))).length = (rows.map f).sum := by
  intro rows
  induction rows with
  | nil => rfl
  | cons r rs ih =>
    rw [List.flatMap_cons, List.length_append, List.length_replicate, ih,
      List.map_cons, List.sum_cons]

/-! ### C1: row count of the expansion -/

/-- C1: for every table `T` and every column `C` in the eligible list for
`T`, the expansion produces an output whose row count is the sum over the
rows of `T` of `max(1, k)`, with `k` the row's quantity value and `k = 1`
for a missing (NaN) value; a quantity of `0` or negative yields exactly one
copy and no error is raised (the output is produced). -/
theorem split_row_count (t : Table) (C : Variable) (hC : C ∈ eligibleColumns t) :
    ∃ out, split t (some (FeatureItem.col C)) = some out ∧
      out.rows.length =
        (t.rows.map (fun row =>
          (max 1 (int_or_1 (getVal t.domain.allColumns row C.name))).toNat)).sum := by
  refine ⟨_, split_col_closed t C, ?_⟩
  have hint := (is_integer_col_spec (mem_eligibleColumns.mp hC).2).2
  unfold splitRows
  rw [flatMap_replicate_length]
  congr 1
  exact List.map_congr_left (fun row hrow => copiesOf_of_integer (hint row hrow))

/-- The docstring's example table: `(John, icecream, 3)`, `(Lisa, pie, 2)`
with discrete name and product columns (values are their category codes). -/
def scenarioATable : Table :=
  { domain := { attributes := [⟨("name"), false⟩, ⟨("product"), false⟩, ⟨("quantity"), true⟩]
                class_vars := []
                metas := [] }
    rows := [[some 0, some 0, some 3], [some 1, some 1, some 2]] }

/-- Witness for `split_row_count` at the docstring's example: `quantity` is
eligible and the output has `3 + 2 = 5` rows. -/
theorem split_row_count_witness :
    (⟨("quantity"), true⟩ : Variable) ∈ eligibleColumns scenarioATable ∧
      ∃ out, split scenarioATable (some (FeatureItem.col ⟨("quantity"), true⟩)) = some out ∧
        out.rows.length =
          (scenarioATable.rows.map (fun row =>
            (max 1 (int_or_1 (getVal scenarioATable.domain.allColumns row ("quantity")))).toNat)).sum :=
  ⟨by decide, split_row_count scenarioATable ⟨("quantity"), true⟩ (by decide)⟩

/-! ### C4: the output domain -/

/-- A one-row table with an attribute `x`, a class variable `c` and integer
values everywhere; both columns are eligible. -/
def classVarTable : Table :=
  { domain := { attributes := [⟨("x"), true⟩]
                class_vars := [⟨("c"), true⟩]
                metas := [] }
    rows := [[some 1, some 2]] }

/-- C4 counterexample: expanding `classVarTable` along the eligible feature
column `x` keeps the class variable `c` both among the attributes and among
the class variables of the output domain, so `c` occurs twice rather than
exactly once (the code filters `domain.variables`, which already includes
the class variables, and then passes `class_vars` again). -/
theorem split_domain_counterexample :
    (⟨("x"), true⟩ : Variable) ∈ eligibleColumns classVarTable ∧
      split classVarTable (some (FeatureItem.col ⟨("x"), true⟩)) =
        some { domain := { attributes := [⟨("c"), true⟩]
                           class_vars := [⟨("c"), true⟩]
                           metas := [] }
               rows := [[some 2, some 2]] } ∧
      ({ attributes := [⟨("c"), true⟩], class_vars := [⟨("c"), true⟩],
         metas := [] } : Domain).allColumns.count ⟨("c"), true⟩ = 2 :=
  ⟨by decide, by rw [split_col_closed]; decide, by decide⟩

/-- C4 (amended to tables without class columns): for every table `T` whose
domain has no class variables and whose column names are distinct, and every
eligible column `C`, the output domain of the expansion never contains a
column named like `C` and consists of every other input column exactly once,
in the original relative order. -/
theorem split_domain_drops_column (t : Table) (C : Variable)
    (hcv : t.domain.class_vars = [])
    (hC : C ∈ eligibleColumns t)
    (hN : (t.domain.allColumns.map Variable.name).Nodup) :
    ∃ out, split t (some (FeatureItem.col C)) = some out ∧
      out.domain.allColumns = t.domain.allColumns.filter (fun v => v.name ≠ C.name) ∧
      (∀ v ∈ out.domain.allColumns, v.name ≠ C.name) ∧
      (∀ v ∈ t.domain.allColumns, v.name ≠ C.name → out.domain.allColumns.count v = 1) := by
  refine ⟨_, split_col_closed t C, ?_⟩
  have hCvar : C ∈ t.domain.variables := (mem_eligibleColumns.mp hC).1
  have hCattr : C ∈ t.domain.attributes := by
    unfold Domain.variables at hCvar
    rw [hcv, List.append_nil] at hCvar
    exact hCvar
  have hcols : t.domain.allColumns = t.domain.attributes ++ t.domain.metas := by
    unfold Domain.allColumns
    rw [hcv, List.append_nil]
  have hmetas : ∀ m ∈ t.domain.metas, m.name ≠ C.name := by
    intro m hm heq
    rw [hcols, List.map_append] at hN
    rcases List.nodup_append.mp hN with ⟨-, -, hdisj⟩
    exact hdisj (List.mem_map_of_mem Variable.name hCattr)
      (heq ▸ List.mem_map_of_mem Variable.name hm)
  have hmfilter : t.domain.metas.filter (fun v => v.name ≠ C.name) = t.domain.metas := by
    rw [List.filter_eq_self]
    intro m hm
    exact decide_eq_true (hmetas m hm)
  have hfilter : (splitDomain t.domain C.name).allColumns =
      t.domain.allColumns.filter (fun v => v.name ≠ C.name) := by
    unfold splitDomain Domain.allColumns Domain.variables
    dsimp only
    rw [hcv, List.append_nil, List.append_nil, List.filter_append, hmfilter]
  refine ⟨hfilter, ?_, ?_⟩
  · intro v hv
    rw [hfilter] at hv
    exact of_decide_eq_true (List.mem_filter.mp hv).2
  · intro v hv hne
    rw [hfilter, List.count_filter (by exact decide_eq_true hne)]
    have hnd : t.domain.allColumns.Nodup := List.Nodup.of_map Variable.name hN
    exact List.count_eq_one_of_mem hnd hv

/-- A class-variable-free table with distinct column names, a meta column
and an eligible quantity column `q`. -/
def featureMetaTable : Table :=
  { domain := { attributes := [⟨("q"), true⟩, ⟨("y"), true⟩]
                class_vars := []
                metas := [⟨("m"), true⟩] }
    rows := [[some 2, some 5, none]] }

/-- Witness for `split_domain_drops_column` at `featureMetaTable` with `q`. -/
theorem split_domain_drops_column_witness :
    featureMetaTable.domain.class_vars = [] ∧
      (⟨("q"), true⟩ : Variable) ∈ eligibleColumns featureMetaTable ∧
      (featureMetaTable.domain.allColumns.map Variable.name).Nodup ∧
      (∃ out, split featureMetaTable (some (FeatureItem.col ⟨("q"), true⟩)) = some out ∧
        out.domain.allColumns =
          featureMetaTable.domain.allColumns.filter (fun v => v.name ≠ (⟨("q"), true⟩ : Variable).name) ∧
        (∀ v ∈ out.domain.allColumns, v.name ≠ (⟨("q"), true⟩ : Variable).name) ∧
        (∀ v ∈ featureMetaTable.domain.allColumns,
          v.name ≠ (⟨("q"), true⟩ : Variable).name → out.domain.allColumns.count v = 1)) :=
  ⟨rfl, by decide, by decide,
    split_domain_drops_column featureMetaTable ⟨("q"), true⟩ rfl (by decide) (by decide)⟩

/-! ### C6: row order and per-row projection -/

theorem getVal_convertRow (nd d : Domain) (row : List Value) :
    ∀ v ∈ nd.allColumns,
      getVal nd.allColumns (convertRow nd d row) v.name = getVal d.allColumns row v.name := by
  unfold convertRow
  generalize nd.allColumns = cols
  induction cols with
  | nil => intro v hv; cases hv
  | cons c cs ih =>
    intro v hv
    rw [List.map_cons]
    have hstep : getVal (c :: cs)
        (getVal d.allColumns row c.name :: List.map (fun v => getVal d.allColumns row v.name) cs) v.name =
        if c.name = v.name then getVal d.allColumns row c.name
        else getVal cs (List.map (fun v => getVal d.allColumns row v.name) cs) v.name := rfl
    rw [hstep]
    by_cases h : c.name = v.name
    · rw [if_pos h, h]
    · rw [if_neg h]
      have hvcs : v ∈ cs := by
        rcases List.mem_cons.mp hv with rfl | hmem
        · exact absurd rfl h
        · exact hmem
      exact ih v hvcs

/-- A table whose quantity column `q` is a class variable: `q` is eligible,
but the constructed domain keeps it among the class variables. -/
def classQuantityTable : Table :=
  { domain := { attributes := [⟨("x"), true⟩]
                class_vars := [⟨("q"), true⟩]
                metas := [] }
    rows := [[some 1, some 2]] }

/-- C6 counterexample: expanding `classQuantityTable` along the eligible
class column `q` emits output rows that still carry the quantity value
(`row["q"] = 2`), so the copies are not the source row with the quantity
value dropped. -/
theorem split_projection_counterexample :
    (⟨("q"), true⟩ : Variable) ∈ eligibleColumns classQuantityTable ∧
      split classQuantityTable (some (FeatureItem.col ⟨("q"), true⟩)) =
        some { domain := { attributes := [⟨("x"), true⟩]
                           class_vars := [⟨("q"), true⟩]
                           metas := [] }
               rows := [[some 1, some 2], [some 1, some 2]] } ∧
      getVal ({ attributes := [⟨("x"), true⟩], class_vars := [⟨("q"), true⟩],
                metas := [] } : Domain).allColumns [some 1, some 2] ("q") = some 2 :=
  ⟨by decide, by rw [split_col_closed]; decide, by decide⟩

/-- C6 (amended to quantity columns that are feature columns): for every
table `T` with distinct column names and every eligible column `C` among the
attributes, the output rows are, in order, `k` adjacent copies of each source
row (`k` the per-row count of C1), every copy read at any output column gives
the source row's value for that column unchanged, and no output column is
named like `C` (the quantity value is dropped). -/
theorem split_order_projection (t : Table) (C : Variable)
    (hC : C ∈ eligibleColumns t)
    (hAttr : C ∈ t.domain.attributes)
    (hN : (t.domain.allColumns.map Variable.name).Nodup) :
    ∃ out, split t (some (FeatureItem.col C)) = some out ∧
      out.rows = t.rows.flatMap (fun row =>
        List.replicate (copiesOf t.domain C.name row) (convertRow out.domain t.domain row)) ∧
      (∀ v ∈ out.domain.allColumns, v.name ≠ C.name) ∧
      (∀ row ∈ t.rows, ∀ v ∈ out.domain.allColumns,
        getVal out.domain.allColumns (convertRow out.domain t.domain row) v.name =
          getVal t.domain.allColumns row v.name) := by
  refine ⟨_, split_col_closed t C, rfl, ?_, ?_⟩
  · intro v hv
    have hdisj : ∀ w ∈ t.domain.class_vars ++ t.domain.metas, w.name ≠ C.name := by
      intro w hw heq
      unfold Domain.allColumns at hN
      rw [List.append_assoc, List.map_append] at hN
      rcases List.nodup_append.mp hN with ⟨-, -, hd⟩
      exact hd (List.mem_map_of_mem Variable.name hAttr)
        (heq ▸ List.mem_map_of_mem Variable.name hw)
    unfold splitDomain Domain.allColumns at hv
    dsimp only at hv
    rw [List.append_assoc, List.mem_append] at hv
    rcases hv with hv | hv
    · exact of_decide_eq_true (List.mem_filter.mp hv).2
    · exact hdisj v hv
  · intro row _ v hv
    exact getVal_convertRow _ t.domain row v hv

/-- A plain feature table for the order/projection witness: `qty` is
eligible (one integer value and one NaN). -/
def orderWitnessTable : Table :=
  { domain := { attributes := [⟨("n"), true⟩, ⟨("qty"), true⟩]
                class_vars := []
                metas := [] }
    rows := [[some 4, some 2], [some 6, none]] }

/-- Witness for `split_order_projection` at `orderWitnessTable` with `qty`. -/
theorem split_order_projection_witness :
    (⟨("qty"), true⟩ : Variable) ∈ eligibleColumns orderWitnessTable ∧
      (⟨("qty"), true⟩ : Variable) ∈ orderWitnessTable.domain.attributes ∧
      (orderWitnessTable.domain.allColumns.map Variable.name).Nodup ∧
      (∃ out, split orderWitnessTable (some (FeatureItem.col ⟨("qty"), true⟩)) = some out ∧
        out.rows = orderWitnessTable.rows.flatMap (fun row =>
          List.replicate (copiesOf orderWitnessTable.domain (⟨("qty"), true⟩ : Variable).name row)
            (convertRow out.domain orderWitnessTable.domain row)) ∧
        (∀ v ∈ out.domain.allColumns, v.name ≠ (⟨("qty"), true⟩ : Variable).name) ∧
        (∀ row ∈ orderWitnessTable.rows, ∀ v ∈ out.domain.allColumns,
          getVal out.domain.allColumns (convertRow out.domain orderWitnessTable.domain row) v.name =
            getVal orderWitnessTable.domain.allColumns row v.name)) :=
  ⟨by decide, by decide, by decide,
    split_order_projection orderWitnessTable ⟨("qty"), true⟩ (by decide) (by decide) (by decide)⟩

/-! ### C2, C3: the computed eligible list -/

/-- A zero-row table with one numeric column. -/
def zeroRowTable : Table :=
  { domain := { attributes := [⟨("q"), true⟩], class_vars := [], metas := [] }
    rows := [] }

/-- C2 counterexample: in `zeroRowTable` the column `q` is numeric and every
row's value is vacuously missing-or-integer, yet `q` is not in the computed
eligible list — the guard `if self.data` treats the falsy zero-row table
like absent data. -/
theorem eligible_zero_rows_counterexample :
    (⟨("q"), true⟩ : Variable) ∈ zeroRowTable.domain.variables ∧
      (⟨("q"), true⟩ : Variable).isContinuous = true ∧
      is_integer_col zeroRowTable ⟨("q"), true⟩ = true ∧
      FeatureItem.col ⟨("q"), true⟩ ∉ set_data (some zeroRowTable) := by
  refine ⟨by decide, rfl, by decide, by decide⟩

/-- C2 (amended to tables with at least one row): for every non-absent table
with at least one row and at least one declared column, a column is in the
computed eligible list iff it is one of the declared variables (so not a
meta), is numeric, and every row's value in it is missing or has zero
fractional part. -/
theorem eligible_iff_of_rows (t : Table) (v : Variable)
    (hrows : t.rows ≠ []) (hdom : t.domain.empty = false) :
    FeatureItem.col v ∈ set_data (some t) ↔
      v ∈ t.domain.variables ∧ v.isContinuous = true ∧
        ∀ row ∈ t.rows, isIntegerVal (getVal t.domain.allColumns row v.name) = true := by
  have hre : t.rows.isEmpty = false := by
    cases h : t.rows with
    | nil => exact absurd h hrows
    | cons a l => rfl
  unfold set_data
  dsimp only
  rw [hre, hdom]
  simp only [Bool.not_false, Bool.and_self, if_true, List.mem_cons, List.mem_map,
    FeatureItem.col.injEq, exists_eq_right]
  rw [mem_eligibleColumns]
  unfold is_integer_col
  rw [Bool.and_eq_true, List.all_eq_true]
  constructor
  · rintro (hs | hmem)
    · exact absurd hs (by simp)
    · exact ⟨hmem.1, hmem.2.1, hmem.2.2⟩
  · intro hmem
    exact Or.inr ⟨hmem.1, hmem.2.1, hmem.2.2⟩

/-- A one-row table exercising the amended C2 iff. -/
def mixedTable : Table :=
  { domain := { attributes := [⟨("a"), true⟩, ⟨("b"), false⟩], class_vars := [], metas := [] }
    rows := [[some 2, some 0]] }

/-- Witness for `eligible_iff_of_rows` at `mixedTable` and its column `a`. -/
theorem eligible_iff_of_rows_witness :
    mixedTable.rows ≠ [] ∧ mixedTable.domain.empty = false ∧
      (FeatureItem.col ⟨("a"), true⟩ ∈ set_data (some mixedTable) ↔
        (⟨("a"), true⟩ : Variable) ∈ mixedTable.domain.variables ∧
          (⟨("a"), true⟩ : Variable).isContinuous = true ∧
          ∀ row ∈ mixedTable.rows,
            isIntegerVal (getVal mixedTable.domain.allColumns row
              (⟨("a"), true⟩ : Variable).name) = true) :=
  ⟨by decide, by decide, eligible_iff_of_rows mixedTable ⟨("a"), true⟩ (by decide) (by decide)⟩

/-- A zero-row table with two numeric columns. -/
def zeroRowTwoColTable : Table :=
  { domain := { attributes := [⟨("a"), true⟩, ⟨("b"), true⟩], class_vars := [], metas := [] }
    rows := [] }

/-- C3 counterexample: a zero-row table with two numeric columns gets an
eligible list containing no column at all, not all of its numeric columns. -/
theorem zero_rows_counterexample :
    set_data (some zeroRowTwoColTable) = [FeatureItem.sentinel selectFeatureLabel] ∧
      (⟨("a"), true⟩ : Variable).isContinuous = true ∧
      (⟨("b"), true⟩ : Variable).isContinuous = true ∧
      FeatureItem.col ⟨("a"), true⟩ ∉ set_data (some zeroRowTwoColTable) := by
  refine ⟨by decide, rfl, rfl, by decide⟩

/-- C3 (amended): when a zero-row table arrives, the computed eligible list
is empty — the model holds only the placeholder, because `if self.data`
treats the falsy zero-row table like absent data. -/
theorem zero_rows_no_eligible (t : Table) (hrows : t.rows = []) :
    set_data (some t) = [FeatureItem.sentinel selectFeatureLabel] := by
  unfold set_data
  dsimp only
  rw [hrows]
  rfl

/-- A zero-row table distinct from the counterexample's. -/
def zeroRowMetaTable : Table :=
  { domain := { attributes := [⟨("z"), true⟩], class_vars := [], metas := [⟨("w"), false⟩] }
    rows := [] }

/-- Witness for `zero_rows_no_eligible` at `zeroRowMetaTable`. -/
theorem zero_rows_no_eligible_witness :
    zeroRowMetaTable.rows = [] ∧
      set_data (some zeroRowMetaTable) = [FeatureItem.sentinel selectFeatureLabel] :=
  ⟨rfl, zero_rows_no_eligible zeroRowMetaTable rfl⟩

/-! ### C5: no eligibility guard in `split` -/

/-- A table whose column `q` holds the fractional value `3/2`, so `q` is not
eligible. -/
def fracTable : Table :=
  { domain := { attributes := [⟨("x"), true⟩, ⟨("q"), true⟩], class_vars := [], metas := [] }
    rows := [[some 7, some (mkRat 3 2)]] }

/-- C5 evaluation at the failing input: `q` is not in the eligible list, yet
requesting the expansion with `q` raises no error and silently sends a table
with two copies of the row (the while loop runs `ceil(3/2) = 2` times in
total); the required defensive guard does not exist in `split`. -/
theorem split_no_eligibility_guard :
    (⟨("q"), true⟩ : Variable) ∉ eligibleColumns fracTable ∧
      split fracTable (some (FeatureItem.col ⟨("q"), true⟩)) =
        some { domain := { attributes := [⟨("x"), true⟩], class_vars := [], metas := [] }
               rows := [[some 7], [some 7]] } :=
  ⟨by decide, by rw [split_col_closed]; decide⟩

/-! ### C7, C8, C9, C10: selection, enablement and the missing-data path -/

theorem set_data_shape (data : Option Table) :
    ∃ rest, set_data data = FeatureItem.sentinel selectFeatureLabel :: rest ∧
      ∀ item ∈ rest, ∃ t v, data = some t ∧ item = FeatureItem.col v ∧
        v.isContinuous = true ∧ v ∈ t.domain.variables := by
  cases data with
  | none => exact ⟨[], rfl, by intro item h; cases h⟩
  | some t =>
    unfold set_data
    dsimp only
    by_cases hg : (!t.rows.isEmpty && !t.domain.empty) = true
    · rw [if_pos hg]
      refine ⟨(eligibleColumns t).map FeatureItem.col, rfl, ?_⟩
      intro item hitem
      obtain ⟨w, hw, hwe⟩ := List.mem_map.mp hitem
      obtain ⟨hwvar, hwint⟩ := mem_eligibleColumns.mp hw
      exact ⟨t, w, rfl, hwe.symm, (is_integer_col_spec hwint).1, hwvar⟩
    · rw [if_neg hg]
      exact ⟨[], rfl, by intro item h; cases h⟩

/-- C7: the Split action is enabled iff the current selection resolves to an
actual column of the eligible-column model, never to the placeholder (the
predicate `feature_changed` recomputes on each selection change applies to
any current index). -/
theorem commit_enabled_iff (data : Option Table) (index : ℤ) :
    feature_changed (set_data data) index = true ↔
      ∃ v, selected_col (set_data data) index = some (FeatureItem.col v) := by
  obtain ⟨rest, hshape, hitems⟩ := set_data_shape data
  unfold feature_changed selected_col
  by_cases hidx : index < 1
  · rw [if_pos hidx]
    simp
  · rw [if_neg hidx]
    cases hget : (set_data data).get? index.toNat with
    | none => simp
    | some item =>
      have hn : ∃ n, index.toNat = n + 1 := by
        have h1 : (1 : ℤ) ≤ index := not_lt.mp hidx
        exact ⟨index.toNat - 1, by omega⟩
      obtain ⟨n, hidxn⟩ := hn
      rw [hshape, hidxn] at hget
      have hmem : item ∈ rest := List.get?_mem hget
      obtain ⟨t, v, -, hcol, -, -⟩ := hitems item hmem
      subst hcol
      simp [itemTruthy]

/-- C8: whenever the input becomes null, the widget immediately emits null
on its output boundary (no user action is consulted). -/
theorem null_input_sends_null (features : List FeatureItem) (index : ℤ) :
    handleNewSignals none features index = SignalEffect.send none := rfl

/-- C9: after every `set_data` the features model starts with the sentinel
placeholder, every further entry is a continuous variable drawn from the
table's declared variables, and a meta column that is not also a declared
variable is never offered, however numeric its values. -/
theorem set_data_features_invariant (data : Option Table) :
    ∃ rest, set_data data = FeatureItem.sentinel selectFeatureLabel :: rest ∧
      (∀ item ∈ rest, ∃ t v, data = some t ∧ item = FeatureItem.col v ∧
        v.isContinuous = true ∧ v ∈ t.domain.variables) ∧
      (∀ t m, data = some t → m ∈ t.domain.metas → m ∉ t.domain.variables →
        FeatureItem.col m ∉ set_data data) := by
  obtain ⟨rest, hshape, hitems⟩ := set_data_shape data
  refine ⟨rest, hshape, hitems, ?_⟩
  intro t m hdata hmeta hnvar hmem
  rw [hshape] at hmem
  rcases List.mem_cons.mp hmem with h | h
  · exact FeatureItem.noConfusion h
  · obtain ⟨t', v, hdt, hcol, -, hvar⟩ := hitems _ h
    have hmv : m = v := by injection hcol
    have htt : t = t' := by
      rw [hdata] at hdt
      injection hdt
    rw [← hmv, ← htt] at hvar
    exact hnvar hvar

/-- A table carrying an integer-valued numeric meta column `m`. -/
def metaTable : Table :=
  { domain := { attributes := [⟨("a"), true⟩], class_vars := [], metas := [⟨("m"), true⟩] }
    rows := [[some 1, some 4]] }

/-- Witness for `set_data_features_invariant` at `metaTable`. -/
theorem set_data_features_invariant_witness :
    ∃ rest, set_data (some metaTable) = FeatureItem.sentinel selectFeatureLabel :: rest ∧
      (∀ item ∈ rest, ∃ t v, some metaTable = some t ∧ item = FeatureItem.col v ∧
        v.isContinuous = true ∧ v ∈ t.domain.variables) ∧
      (∀ t m, some metaTable = some t → m ∈ t.domain.metas → m ∉ t.domain.variables →
        FeatureItem.col m ∉ set_data (some metaTable)) :=
  set_data_features_invariant (some metaTable)

/-- C10: with the combo index at 0 or negative, `selected_col()` is `None`,
and invoking `split` then fails (reading `.name` off `None`) before any
output table is built — nothing is sent for any input table. -/
theorem split_requires_selection (features : List FeatureItem) (index : ℤ)
    (h : index < 1) :
    selected_col features index = none ∧
      ∀ t, split t (selected_col features index) = none := by
  have hsel : selected_col features index = none := by
    unfold selected_col
    rw [if_pos h]
  exact ⟨hsel, fun t => by rw [hsel]; rfl⟩

/-- Witness for `split_requires_selection`: a fresh model with index `0`. -/
theorem split_requires_selection_witness :
    (0 : ℤ) < 1 ∧
      (selected_col [FeatureItem.sentinel selectFeatureLabel] 0 = none ∧
        ∀ t, split t (selected_col [FeatureItem.sentinel selectFeatureLabel] 0) = none) :=
  ⟨by decide, split_requires_selection [FeatureItem.sentinel selectFeatureLabel] 0 (by decide)⟩
